import Mathlib

/-!
Verification of the Aetherium Labyrinth maze game (main.js, renderer.js,
maze.ino) against its natural-language specification.

The embedding below translates the relevant JavaScript and Arduino code
into Lean definitions:
  - leaderboard cell values become `JSVal`, JS numeric times become `ETime`
    (a natural number of milliseconds or Infinity);
  - the Excel store becomes `StoreFile` (missing / empty / corrupt /
    no-Leaderboard-sheet / a table of rows);
  - `readData` (main.js lines 189-238) becomes `readData`, including its
    sanitization: `String(rollNo || '')`, `Number(x) || 0`,
    `time ? Number(time) : Infinity`, and dropping rows whose roll number
    renders as the empty string;
  - the `excel:save-data` handler (main.js lines 244-290) becomes
    `applyEntry` (in-memory fold) and `saveStep` (full read-modify-write
    round trip through the store);
  - the Arduino `loop()` (maze.ino lines 32-64) becomes `processCommand`,
    `fallCheck` and `loopStep`;
  - `handleStartTrial`/`startTimer` (renderer.js lines 65-71, 176-196)
    become `handleStartTrial`/`startTimer` over an explicit renderer state;
  - `connectToPort`/`createNewPort` (main.js lines 108-151) become
    `connectToPort` over an explicit connection state with an event trace;
  - the (absent) serialization of the save handler is analysed with a
    small interleaving model `runSched` of two overlapping handler calls.
-/

namespace Maze

/-! ### JS values and times -/

/-- A JavaScript value as it can appear in a leaderboard cell or in the
`rollNo` field of an IPC payload: undefined/null, a natural number,
the number `Infinity`, or a string. -/
inductive JSVal where
  | vempty
  | num (n : Nat)
  | numInf
  | str (s : String)
deriving DecidableEq

/-- JS truthiness of a `JSVal` (`undefined`, `0` and `""` are falsy). -/
def JSVal.truthy : JSVal → Bool
  | .vempty => false
  | .num n => n != 0
  | .numInf => true
  | .str s => s != ""

/-- JS `String(v)`. -/
def JSVal.render : JSVal → String
  | .vempty => "undefined"
  | .num n => toString n
  | .numInf => "Infinity"
  | .str s => s

/-- A JS number used as an elapsed/best time: a natural number of
milliseconds, or `Infinity` (the sentinel for "no successful run"). -/
inductive ETime where
  | fin (n : Nat)
  | inf
deriving DecidableEq

/-- The JS `<` comparison on times (`Infinity` exceeds every number). -/
def ETime.lt : ETime → ETime → Bool
  | .fin a, .fin b => a < b
  | .fin _, .inf => true
  | .inf, _ => false

/-- Non-strict comparison on times. -/
def ETime.le : ETime → ETime → Bool
  | _, .inf => true
  | .fin a, .fin b => a ≤ b
  | .inf, .fin _ => false

/-- Minimum of two times. -/
def ETime.min : ETime → ETime → ETime
  | .fin a, .fin b => .fin (Nat.min a b)
  | .fin a, .inf => .fin a
  | .inf, b => b

/-! ### The durable store and `readData` -/

/-- A sanitized in-memory player record, as produced by `readData` and
consumed by the `excel:save-data` handler (main.js). -/
structure Player where
  name : String
  rollNo : String
  time : ETime
  successes : Nat
  defeats : Nat
  hasImproved : Bool
deriving DecidableEq

/-- A raw row of the `Leaderboard` sheet: cells may be empty.
(`time = none` models an empty BestTime cell.) -/
structure Row where
  name : String
  rollNo : JSVal
  time : Option ETime
  successes : Option Nat
  defeats : Option Nat
  hasImproved : Bool
deriving DecidableEq

/-- The leaderboard file on disk.  `missing`, `emptyFile`, `corrupt` and
`noSheet` are the failure shapes `readData` guards against (file absent,
zero-size file, unreadable workbook, workbook without a valid
`Leaderboard` sheet); `table rows` is a well-formed store. -/
inductive StoreFile where
  | missing
  | emptyFile
  | corrupt
  | noSheet
  | table (rows : List Row)
deriving DecidableEq

/-- main.js line 223: `player.rollNo = String(player.rollNo || '')`. -/
def sanitizeRoll (v : JSVal) : String :=
  if v.truthy then v.render else ""

/-- main.js line 226: `player.time = player.time ? Number(player.time) :
Infinity` — an empty cell or the (falsy) number 0 becomes Infinity. -/
def sanitizeTime : Option ETime → ETime
  | none => .inf
  | some t => if t = .fin 0 then .inf else t

/-- main.js lines 216-229: build a player from a row; rows whose roll
number renders as the empty string are not pushed. -/
def sanitizeRow (r : Row) : Option Player :=
  let roll := sanitizeRoll r.rollNo
  if roll = "" then none
  else
    some { name := r.name
           rollNo := roll
           time := sanitizeTime r.time
           successes := r.successes.getD 0
           defeats := r.defeats.getD 0
           hasImproved := r.hasImproved }

/-- main.js lines 189-238 (`readData`): every failure shape yields the
empty record set; a table yields its sanitized rows. -/
def readData : StoreFile → List Player
  | .table rows => rows.filterMap sanitizeRow
  | _ => []

/-! ### The `excel:save-data` handler -/

/-- Run result reported by the renderer (`status` field). -/
inductive Status where
  | success
  | defeat
deriving DecidableEq

/-- The `newEntry` payload of one `excel:save-data` call: one run
outcome (renderer.js `currentPlayer`). -/
structure Entry where
  name : String
  rollNo : JSVal
  time : Nat
  status : Status
deriving DecidableEq

/-- Index of the first list element satisfying `p` (JS `findIndex`). -/
def findIndex (p : α → Bool) : List α → Option Nat
  | [] => none
  | x :: xs => if p x then some 0 else (findIndex p xs).map (· + 1)

/-- Replace the element at index `i` by `f` of it. -/
def modifyAt : List α → Nat → (α → α) → List α
  | [], _, _ => []
  | x :: xs, 0, f => f x :: xs
  | x :: xs, n + 1, f => x :: modifyAt xs n f

/-- main.js lines 252-264: update an existing player's record with a new
outcome (applied after the improvement flags have been cleared). -/
def updateExisting (e : Entry) (p : Player) : Player :=
  match e.status with
  | .success =>
    let p := { p with successes := p.successes + 1 }
    if (ETime.fin e.time).lt p.time then
      { p with time := .fin e.time, name := e.name, hasImproved := true }
    else p
  | .defeat => { p with defeats := p.defeats + 1 }

/-- main.js lines 266-274: record created for a previously unseen roll
number. -/
def freshPlayer (e : Entry) (key : String) : Player :=
  { name := e.name
    rollNo := key
    time := match e.status with | .success => .fin e.time | .defeat => .inf
    successes := match e.status with | .success => 1 | .defeat => 0
    defeats := match e.status with | .defeat => 1 | .success => 0
    hasImproved := e.status == .success }

/-- main.js lines 246-275: the in-memory part of the `excel:save-data`
handler — find the matching record by `String(newEntry.rollNo)`, clear
every `hasImproved` flag, then update the match or append a new record. -/
def applyEntry (data : List Player) (e : Entry) : List Player :=
  match findIndex (fun p => p.rollNo == e.rollNo.render) data with
  | some i =>
    modifyAt (data.map fun p => { p with hasImproved := false }) i (updateExisting e)
  | none =>
    (data.map fun p => { p with hasImproved := false }) ++ [freshPlayer e e.rollNo.render]

/-- main.js lines 277-282: one row written back per record. -/
def rowOfPlayer (p : Player) : Row :=
  { name := p.name
    rollNo := .str p.rollNo
    time := some p.time
    successes := some p.successes
    defeats := some p.defeats
    hasImproved := p.hasImproved }

/-- The full-table replacement write of the handler. -/
def writeStore (data : List Player) : StoreFile :=
  .table (data.map rowOfPlayer)

/-- One complete `excel:save-data` call: load the store, fold the
outcome in, persist the whole table. -/
def saveStep (f : StoreFile) (e : Entry) : StoreFile :=
  writeStore (applyEntry (readData f) e)

/-- A sequence of serialized `excel:save-data` calls starting from the
freshly initialized store (headers only, no data rows). -/
def runSave (es : List Entry) : StoreFile :=
  es.foldl saveStep (.table [])

/-! ### The ranked leaderboard view (renderer.js lines 107-116) -/

/-- Insert a player into a list ordered by ascending time (models the
ascending comparator `(a, b) => a.time - b.time`). -/
def insertByTime (p : Player) : List Player → List Player
  | [] => [p]
  | q :: qs => if p.time.lt q.time then p :: q :: qs else q :: insertByTime p qs

/-- Stable ascending sort by time. -/
def sortByTime : List Player → List Player
  | [] => []
  | p :: ps => insertByTime p (sortByTime ps)

/-- renderer.js line 108: `data.filter(p => p.time !== Infinity)
.sort((a, b) => a.time - b.time)` — the ranked leaderboard view. -/
def rankedView (data : List Player) : List Player :=
  sortByTime (data.filter fun p => p.time != .inf)

/-! ### String helpers (JS `trim`/`toUpperCase`, Arduino `String::trim`) -/

/-- Whitespace trim at both ends, as performed by JS
`String.prototype.trim` and Arduino `String::trim` on the ASCII lines of
this protocol. -/
def trimS (s : String) : String :=
  ⟨((s.data.dropWhile Char.isWhitespace).reverse.dropWhile Char.isWhitespace).reverse⟩

/-- ASCII uppercasing, as performed by JS `toUpperCase` on the names of
this application. -/
def upperS (s : String) : String :=
  ⟨s.data.map Char.toUpper⟩

/-! ### The embedded run state machine (maze.ino) -/

/-- maze.ino line 15. -/
def FALL_THRESHOLD : Int := 5

/-- maze.ino line 16: `bool gameIsActive = false`. -/
def initialGameIsActive : Bool := false

/-- maze.ino lines 33-41: consume one serial line if available — trim
it, and on `START` while inactive become active and report; anything
else (including `START` while active) changes nothing.  Returns the new
state and the emitted lines. -/
def processCommand (gameIsActive : Bool) (line : String) : Bool × List String :=
  let command := trimS line
  if command == "START" && !gameIsActive then (true, ["Game Started!"])
  else (gameIsActive, [])

/-- maze.ino lines 43-63: while active (joystick/servo writes have no
protocol-visible effect and are omitted), sample the distance; a sample
strictly between 0 and `FALL_THRESHOLD` ends the run and emits one
`FINISH` line. -/
def fallCheck (gameIsActive : Bool) (distance : Int) : Bool × List String :=
  if gameIsActive then
    if 0 < distance ∧ distance < FALL_THRESHOLD then (false, ["FINISH"])
    else (gameIsActive, [])
  else (gameIsActive, [])

/-- One iteration of `loop()`: the optional pending serial line is
processed first, then the active-phase fall check runs on the distance
sampled in that same iteration. -/
def loopStep (gameIsActive : Bool) (line : Option String) (distance : Int) :
    Bool × List String :=
  let s1 := match line with
    | some l => processCommand gameIsActive l
    | none => (gameIsActive, [])
  let s2 := fallCheck s1.1 distance
  (s2.1, s1.2 ++ s2.2)

/-! ### The renderer's trial start (renderer.js) -/

/-- The renderer state touched by `handleStartTrial`/`startTimer`:
`timerInterval` is the interval id `finishGame` would clear (`none` when
no run is timed), `liveIntervals` the ids of interval callbacks that
have been created and never cleared, `nextIntervalId` the id the next
`setInterval` returns. -/
structure RState where
  timerInterval : Option Nat
  startTime : Nat
  liveIntervals : List Nat
  nextIntervalId : Nat
  currentName : String
  currentRollNo : String
  errorMessage : String
  screen : String
  sentCommands : List String
deriving DecidableEq

/-- renderer.js lines 65-71: `startTimer` records `Date.now()` and
unconditionally creates a fresh interval, overwriting `timerInterval`
without clearing any previous interval. -/
def startTimer (s : RState) (now : Nat) : RState :=
  { s with startTime := now
           timerInterval := some s.nextIntervalId
           liveIntervals := s.liveIntervals ++ [s.nextIntervalId]
           nextIntervalId := s.nextIntervalId + 1 }

/-- renderer.js lines 176-196: `handleStartTrial` — validate the two
inputs, uppercase the name, send `START`, switch to the game screen and
start the timer.  There is no check of `timerInterval`. -/
def handleStartTrial (s : RState) (nameIn rollIn : String) (now : Nat) : RState :=
  let name := trimS nameIn
  let rollNo := trimS rollIn
  if name = "" ∨ rollNo = "" then
    { s with errorMessage := "Player Name and Roll Number are required." }
  else
    let name := upperS name
    let s := { s with errorMessage := ""
                      currentName := name
                      currentRollNo := rollNo
                      sentCommands := s.sentCommands ++ ["START"]
                      screen := "game" }
    startTimer s now

/-! ### The serial connection (main.js lines 108-151) -/

/-- Observable connection events (the `close`/`open` transitions a
connect or close performs, in order). -/
inductive PortEvent where
  | closedPort (path : String)
  | openedPort (path : String)
deriving DecidableEq

/-- main.js lines 108-121 with 123-151: `connectToPort` closes the
currently open port, if any, and then always constructs and opens a new
port at `portPath`.  The state is the currently open endpoint. -/
def connectToPort (current : Option String) (portPath : String) :
    Option String × List PortEvent :=
  match current with
  | some old => (some portPath, [.closedPort old, .openedPort portPath])
  | none => (some portPath, [.openedPort portPath])

/-- main.js lines 171-173 and 312-314: `if (port && port.isOpen)
port.close()` — close only when open. -/
def closeIfOpen (current : Option String) : Option String × List PortEvent :=
  match current with
  | some p => (none, [.closedPort p])
  | none => (none, [])

/-! ### Interleaving of two `excel:save-data` calls -/

/-- The two suspension-separated halves of each of two overlapping
handler calls: the `await readData()` and the `await writeFile` with the
in-memory fold folded into it. -/
inductive SaveAct where
  | load1
  | persist1
  | load2
  | persist2
deriving DecidableEq

/-- Execution state of two overlapping handler calls: the store plus
each call's loaded snapshot. -/
structure SaveExec where
  store : StoreFile
  snap1 : Option (List Player)
  snap2 : Option (List Player)
deriving DecidableEq

/-- Effect of one half-call on the execution state. -/
def doSaveAct (e1 e2 : Entry) (s : SaveExec) : SaveAct → SaveExec
  | .load1 => { s with snap1 := some (readData s.store) }
  | .load2 => { s with snap2 := some (readData s.store) }
  | .persist1 =>
    match s.snap1 with
    | some d => { s with store := writeStore (applyEntry d e1) }
    | none => s
  | .persist2 =>
    match s.snap2 with
    | some d => { s with store := writeStore (applyEntry d e2) }
    | none => s

/-- Run a schedule of half-calls from the freshly initialized store. -/
def runSched (e1 e2 : Entry) (sched : List SaveAct) : SaveExec :=
  sched.foldl (doSaveAct e1 e2) { store := .table [], snap1 := none, snap2 := none }

/-- First position of `a` in `sched` strictly before first position of
`b`. -/
def occursBefore (sched : List SaveAct) (a b : SaveAct) : Bool :=
  match findIndex (· == a) sched, findIndex (· == b) sched with
  | some i, some j => i < j
  | _, _ => false

/-- A schedule is an execution the un-synchronized async handler admits:
all four half-calls, each call's load before its persist. -/
def programOrderOk (sched : List SaveAct) : Bool :=
  sched.length == 4 &&
  occursBefore sched .load1 .persist1 &&
  occursBefore sched .load2 .persist2

/-- The serialization the claim asserts: one call's persist completes
before the other call's load begins. -/
def serializedOk (sched : List SaveAct) : Bool :=
  occursBefore sched .persist1 .load2 || occursBefore sched .persist2 .load1

/-! ### Derived notions used in the statements -/

/-- Whether the store is a well-formed table. -/
def StoreFile.isTable : StoreFile → Bool
  | .table _ => true
  | _ => false

/-- The read-failure shapes of the durable store. -/
def badStore (f : StoreFile) : Prop :=
  f = .missing ∨ f = .emptyFile ∨ f = .corrupt ∨ f = .noSheet

/-- Minimum elapsed time over a list of outcomes. -/
def minTimes : List Entry → ETime
  | [] => .inf
  | e :: es => ETime.min (.fin e.time) (minTimes es)

/-- The best time the store holds for `key`, as the next load sees it
(`none` when no record for `key` survives the load). -/
def bestTimeOf (f : StoreFile) (key : String) : Option ETime :=
  ((readData f).find? fun p => p.rollNo == key).map Player.time

/-- Same, reading an absent record as Infinity. -/
def bestTimeOfD (f : StoreFile) (key : String) : ETime :=
  (bestTimeOf f key).getD .inf

/-- Number of records carrying the improvement flag. -/
def countImproved (data : List Player) : Nat :=
  (data.filter fun p => p.hasImproved).length

/-- The condition of C2, over the loaded record set: the outcome is a
SUCCESS that lowers the matched record's best time, or there is no
record for this player yet (a first success). -/
def improvesNow (data : List Player) (e : Entry) : Bool :=
  e.status == .success &&
    match data.find? (fun p => p.rollNo == e.rollNo.render) with
    | none => true
    | some p => (ETime.fin e.time).lt p.time

/-- Structural-recursion rendering of `applyEntry`, used in proofs:
clear flags left to right, update the first record matching the key,
append a fresh record when none matches. -/
def applyEntryRec (e : Entry) : List Player → List Player
  | [] => [freshPlayer e e.rollNo.render]
  | p :: ps =>
    if p.rollNo == e.rollNo.render then
      updateExisting e { p with hasImproved := false }
        :: ps.map (fun q => { q with hasImproved := false })
    else
      { p with hasImproved := false } :: applyEntryRec e ps

/-! ### Concrete inputs for counterexamples and witnesses -/

/-- A successful run with an elapsed time of exactly 0 ms. -/
def zeroRunA : Entry := { name := "AMY", rollNo := .str "7", time := 0, status := .success }

/-- A later, slower successful run of the same player. -/
def zeroRunB : Entry := { name := "AMY", rollNo := .str "7", time := 5, status := .success }

/-- A positive-time success of player 7 used in C1's witness. -/
def posRunA : Entry := { name := "AMY", rollNo := .str "7", time := 5, status := .success }

/-- A second, faster positive-time success of player 7. -/
def posRunB : Entry := { name := "AMY", rollNo := .str "7", time := 3, status := .success }

/-- First of two overlapping save calls (player 1). -/
def raceE1 : Entry := { name := "AMY", rollNo := .str "1", time := 5000, status := .success }

/-- Second of two overlapping save calls (player 2). -/
def raceE2 : Entry := { name := "BO", rollNo := .str "2", time := 7000, status := .success }

/-- The interleaving in which both loads run before the first persist. -/
def lostSched : List SaveAct := [.load1, .load2, .persist1, .persist2]

/-- The fully serialized schedule of the same two calls. -/
def serialSched : List SaveAct := [.load1, .persist1, .load2, .persist2]

/-- Renderer state at application start: no run timed, welcome screen. -/
def rState0 : RState :=
  { timerInterval := none, startTime := 0, liveIntervals := [], nextIntervalId := 0,
    currentName := "", currentRollNo := "", errorMessage := "", screen := "welcome",
    sentCommands := [] }

/-- Renderer state after a first valid `handleStartTrial` call. -/
def rStateRunning : RState := handleStartTrial rState0 "amy" "7" 100

/-- Loaded record set used to instantiate C2's statement. -/
def demoData : List Player :=
  [{ name := "AMY", rollNo := "7", time := .fin 5000, successes := 1, defeats := 0,
     hasImproved := true }]

/-- Outcome used to instantiate C2's statement: a faster success. -/
def demoEntry : Entry := { name := "AMY", rollNo := .str "7", time := 4000, status := .success }

/-- An outcome carrying a numeric roll number. -/
def numRollEntry : Entry := { name := "N", rollNo := .num 42, time := 9, status := .success }

/-- An outcome carrying the same roll number as a string. -/
def strRollEntry : Entry := { name := "S", rollNo := .str "42", time := 4, status := .defeat }

/-- A stored row whose roll-number cell is the number 0 (renders as the
empty string after the falsy coercion, so the row is dropped). -/
def zeroRollRow : Row :=
  { name := "Z", rollNo := .num 0, time := some (.fin 3), successes := some 1,
    defeats := some 0, hasImproved := false }

/-- A stored row whose BestTime cell is empty. -/
def emptyTimeRow : Row :=
  { name := "E", rollNo := .str "9", time := none, successes := some 2,
    defeats := some 1, hasImproved := false }

/-- The player `readData` produces from `emptyTimeRow`. -/
def emptyTimePlayer : Player :=
  { name := "E", rollNo := "9", time := .inf, successes := 2, defeats := 1,
    hasImproved := false }

/-! ## Theorems -/

/-! ### Shared lemmas about the handler and the store round trip -/

/-- Reading back a single written record: a record with a nonempty roll
number survives the round trip, with only its time cell re-sanitized. -/
theorem readData_writeStore_single (p : Player) (h : p.rollNo ≠ "") :
    readData (writeStore [p]) = [{ p with time := sanitizeTime (some p.time) }] := by
  simp [readData, writeStore, rowOfPlayer, sanitizeRow, sanitizeRoll,
        JSVal.truthy, JSVal.render, h]

theorem applyEntry_nil (e : Entry) :
    applyEntry [] e = [freshPlayer e e.rollNo.render] := rfl

/-- Applying an outcome to a one-record set whose record matches the
outcome's key updates that record (after clearing its flag). -/
theorem applyEntry_single_match (p : Player) (e : Entry)
    (h : p.rollNo = e.rollNo.render) :
    applyEntry [p] e = [updateExisting e { p with hasImproved := false }] := by
  simp [applyEntry, findIndex, h, modifyAt]

theorem updateExisting_rollNo (e : Entry) (p : Player) :
    (updateExisting e p).rollNo = p.rollNo := by
  unfold updateExisting
  cases e.status
  · dsimp only
    split <;> rfl
  · rfl

theorem updateExisting_total (e : Entry) (p : Player) :
    (updateExisting e p).successes + (updateExisting e p).defeats
      = p.successes + p.defeats + 1 := by
  unfold updateExisting
  cases e.status
  · dsimp only
    split <;> dsimp only <;> omega
  · dsimp only
    omega

/-- Flag produced by updating a cleared record: set exactly when the
outcome is a success strictly below the record's current best. -/
theorem updateExisting_flag (e : Entry) (p : Player) (h : p.hasImproved = false) :
    (updateExisting e p).hasImproved
      = (e.status == .success && (ETime.fin e.time).lt p.time) := by
  unfold updateExisting
  cases e.status
  · dsimp only
    cases hc : (ETime.fin e.time).lt p.time <;> simp [hc, h]
  · simp [h]

theorem freshPlayer_rollNo (e : Entry) (k : String) :
    (freshPlayer e k).rollNo = k := rfl

theorem freshPlayer_total (e : Entry) (k : String) :
    (freshPlayer e k).successes + (freshPlayer e k).defeats = 1 := by
  unfold freshPlayer
  cases e.status <;> rfl

/-- Membership in the ascending insertion. -/
theorem mem_insertByTime (p x : Player) (l : List Player) :
    x ∈ insertByTime p l ↔ x = p ∨ x ∈ l := by
  induction l with
  | nil => simp [insertByTime]
  | cons q qs ih =>
    cases hc : p.time.lt q.time
    · simp [insertByTime, hc, ih]
      tauto
    · simp [insertByTime, hc, ih]

/-- Sorting by time preserves membership. -/
theorem mem_sortByTime (x : Player) (l : List Player) :
    x ∈ sortByTime l ↔ x ∈ l := by
  induction l with
  | nil => simp [sortByTime]
  | cons p ps ih => simp [sortByTime, mem_insertByTime, ih]

/-! ### C8, C9, C10 -/

/-- C8: on every read-failure shape of the store (missing, empty,
corrupt, or without a valid `Leaderboard` sheet) `readData` returns the
empty record set instead of raising, and a subsequent save call
recreates a valid table whose single record is the applied outcome's. -/
theorem read_failure_empty_recreate (f : StoreFile) (h : badStore f)
    (e : Entry) (hk : e.rollNo.render ≠ "") :
    readData f = [] ∧
    (saveStep f e).isTable = true ∧
    readData (saveStep f e)
      = [{ freshPlayer e e.rollNo.render with
            time := sanitizeTime (some (freshPlayer e e.rollNo.render).time) }] := by
  have hread : readData f = [] := by
    rcases h with rfl | rfl | rfl | rfl <;> rfl
  refine ⟨hread, ?_, ?_⟩
  · rw [saveStep, hread, applyEntry_nil]
    rfl
  · rw [saveStep, hread, applyEntry_nil]
    exact readData_writeStore_single _ hk

/-- Witness for C8: a corrupt store reads as empty and is rebuilt by a
save. -/
theorem read_failure_empty_recreate_witness :
    readData .corrupt = [] ∧
    (saveStep .corrupt raceE1).isTable = true ∧
    readData (saveStep .corrupt raceE1)
      = [{ freshPlayer raceE1 raceE1.rollNo.render with
            time := sanitizeTime (some (freshPlayer raceE1 raceE1.rollNo.render).time) }] :=
  read_failure_empty_recreate .corrupt (Or.inr (Or.inr (Or.inl rfl))) raceE1 (by decide)

/-- C9: a row whose BestTime cell is empty or holds the number 0 loads
as a record with time Infinity (the falsy coercion in `readData`), and
such a record is excluded from the ranked leaderboard view of any
record set. -/
theorem zero_best_excluded (r : Row) (p : Player) (data : List Player)
    (hp : sanitizeRow r = some p)
    (ht : r.time = none ∨ r.time = some (.fin 0)) :
    p.time = .inf ∧ p ∉ rankedView data := by
  have htime : p.time = .inf := by
    unfold sanitizeRow at hp
    by_cases hr : sanitizeRoll r.rollNo = ""
    · simp [hr] at hp
    · simp [hr] at hp
      subst hp
      rcases ht with h | h <;> simp [sanitizeTime, h]
  refine ⟨htime, ?_⟩
  intro hmem
  unfold rankedView at hmem
  rw [mem_sortByTime] at hmem
  rcases List.mem_filter.mp hmem with ⟨_, hflt⟩
  rw [htime] at hflt
  simp at hflt

/-- Witness for C9: the empty-BestTime row loads with time Infinity and
its record is excluded from the view even of a set containing it. -/
theorem zero_best_excluded_witness :
    emptyTimePlayer.time = .inf ∧ emptyTimePlayer ∉ rankedView [emptyTimePlayer] :=
  zero_best_excluded emptyTimeRow emptyTimePlayer [emptyTimePlayer] (by decide) (Or.inl rfl)

/-- C10: two outcomes whose roll numbers have the same nonempty string
rendering fold into one record (the final set has exactly one record,
holding both attempts), and any loaded row whose roll number renders as
the empty string is dropped by `readData`. -/
theorem rollno_string_fold (e1 e2 : Entry) (r : Row)
    (hsame : e1.rollNo.render = e2.rollNo.render)
    (hne : e1.rollNo.render ≠ "")
    (hdrop : sanitizeRoll r.rollNo = "") :
    (readData (runSave [e1, e2])).length = 1 ∧
    (∀ p ∈ readData (runSave [e1, e2]), p.successes + p.defeats = 2) ∧
    sanitizeRow r = none := by
  obtain ⟨q2, hq2, hcount⟩ :
      ∃ q2, readData (runSave [e1, e2]) = [q2] ∧ q2.successes + q2.defeats = 2 := by
    have h1 : readData (saveStep (.table []) e1)
        = [{ freshPlayer e1 e1.rollNo.render with
              time := sanitizeTime (some (freshPlayer e1 e1.rollNo.render).time) }] := by
      rw [saveStep, show readData (StoreFile.table []) = [] from rfl, applyEntry_nil]
      exact readData_writeStore_single _ hne
    have hrun : runSave [e1, e2] = saveStep (saveStep (.table []) e1) e2 := rfl
    rw [hrun, saveStep, h1, applyEntry_single_match _ _ hsame]
    refine ⟨_, readData_writeStore_single _ ?_, ?_⟩
    · rw [updateExisting_rollNo]
      exact hne
    · show (updateExisting e2 _).successes + (updateExisting e2 _).defeats = 2
      rw [updateExisting_total]
      cases h : e1.status <;> simp [freshPlayer, h]
  refine ⟨by rw [hq2]; rfl, ?_, by unfold sanitizeRow; simp [hdrop]⟩
  intro p hp
  rw [hq2] at hp
  simp at hp
  subst hp
  exact hcount

/-- Witness for C10: the number 42 and the string "42" fold into one
record with two attempts, and a numeric-0 roll number renders empty and
its row is dropped. -/
theorem rollno_string_fold_witness :
    (readData (runSave [numRollEntry, strRollEntry])).length = 1 ∧
    sanitizeRow zeroRollRow = none :=
  ⟨(rollno_string_fold numRollEntry strRollEntry zeroRollRow
      (by decide) (by decide) (by decide)).1,
   (rollno_string_fold numRollEntry strRollEntry zeroRollRow
      (by decide) (by decide) (by decide)).2.2⟩

/-! ### C2: uniqueness of the improvement flag -/

/-- `applyEntry` agrees with its structural-recursion rendering. -/
theorem applyEntry_eq_rec (data : List Player) (e : Entry) :
    applyEntry data e = applyEntryRec e data := by
  induction data with
  | nil => rfl
  | cons p ps ih =>
    cases hc : (p.rollNo == e.rollNo.render)
    · have hfi : findIndex (fun q => q.rollNo == e.rollNo.render) (p :: ps)
          = (findIndex (fun q => q.rollNo == e.rollNo.render) ps).map (· + 1) := by
        simp [findIndex, hc]
      have hrec : applyEntryRec e (p :: ps)
          = { p with hasImproved := false } :: applyEntryRec e ps := by
        simp [applyEntryRec, hc]
      rw [hrec, ← ih]
      unfold applyEntry
      rw [hfi]
      cases hf : findIndex (fun q => q.rollNo == e.rollNo.render) ps
      · simp [modifyAt]
      · simp [modifyAt]
    · have hfi : findIndex (fun q => q.rollNo == e.rollNo.render) (p :: ps)
          = some 0 := by
        simp [findIndex, hc]
      have hrec : applyEntryRec e (p :: ps)
          = updateExisting e { p with hasImproved := false }
              :: ps.map (fun q => { q with hasImproved := false }) := by
        simp [applyEntryRec, hc]
      rw [hrec]
      unfold applyEntry
      rw [hfi]
      simp [modifyAt]

theorem countImproved_cons (x : Player) (l : List Player) :
    countImproved (x :: l) = (if x.hasImproved then 1 else 0) + countImproved l := by
  cases hx : x.hasImproved
  · simp [countImproved, List.filter, hx]
  · simp [countImproved, List.filter, hx]
    omega

theorem countImproved_clear (l : List Player) :
    countImproved (l.map fun q => { q with hasImproved := false }) = 0 := by
  induction l with
  | nil => rfl
  | cons q qs ih =>
    rw [List.map_cons, countImproved_cons]
    simpa using ih

theorem mem_clear_flag (l : List Player) :
    ∀ p ∈ l.map (fun q => { q with hasImproved := false }), p.hasImproved = false := by
  intro p hp
  rcases List.mem_map.mp hp with ⟨q, _, rfl⟩
  rfl

/-- The C2 condition steps through the head of the loaded set exactly as
the handler's lookup does. -/
theorem improvesNow_cons (p : Player) (ps : List Player) (e : Entry) :
    improvesNow (p :: ps) e
      = if p.rollNo == e.rollNo.render then
          e.status == .success && (ETime.fin e.time).lt p.time
        else improvesNow ps e := by
  cases hc : (p.rollNo == e.rollNo.render) <;> simp [improvesNow, List.find?, hc]

theorem countImproved_applyRec (e : Entry) (data : List Player) :
    countImproved (applyEntryRec e data) ≤ 1 := by
  induction data with
  | nil =>
    show countImproved [freshPlayer e e.rollNo.render] ≤ 1
    rw [countImproved_cons]
    cases h : (freshPlayer e e.rollNo.render).hasImproved <;> simp [countImproved, h]
  | cons p ps ih =>
    cases hc : (p.rollNo == e.rollNo.render)
    · have hrec : applyEntryRec e (p :: ps)
          = { p with hasImproved := false } :: applyEntryRec e ps := by
        simp [applyEntryRec, hc]
      rw [hrec, countImproved_cons]
      simpa using ih
    · have hrec : applyEntryRec e (p :: ps)
          = updateExisting e { p with hasImproved := false }
              :: ps.map (fun q => { q with hasImproved := false }) := by
        simp [applyEntryRec, hc]
      rw [hrec, countImproved_cons, countImproved_clear]
      cases h : (updateExisting e { p with hasImproved := false }).hasImproved <;> simp [h]

theorem exists_flag_applyRec (e : Entry) (data : List Player) :
    (∃ p ∈ applyEntryRec e data, p.hasImproved = true) ↔ improvesNow data e = true := by
  induction data with
  | nil =>
    show (∃ p ∈ [freshPlayer e e.rollNo.render], p.hasImproved = true) ↔ _
    have hnil : improvesNow [] e = (e.status == .success) := by
      simp [improvesNow, List.find?]
    rw [hnil]
    cases h : e.status <;> simp [freshPlayer, h]
  | cons p ps ih =>
    rw [improvesNow_cons]
    cases hc : (p.rollNo == e.rollNo.render)
    · have hrec : applyEntryRec e (p :: ps)
          = { p with hasImproved := false } :: applyEntryRec e ps := by
        simp [applyEntryRec, hc]
      rw [hrec]
      simp only [hc, if_neg Bool.false_ne_true]
      rw [← ih]
      constructor
      · rintro ⟨q, hq, hflag⟩
        rcases List.mem_cons.mp hq with rfl | hq'
        · exact absurd hflag (by simp)
        · exact ⟨q, hq', hflag⟩
      · rintro ⟨q, hq, hflag⟩
        exact ⟨q, List.mem_cons_of_mem _ hq, hflag⟩
    · have hrec : applyEntryRec e (p :: ps)
          = updateExisting e { p with hasImproved := false }
              :: ps.map (fun q => { q with hasImproved := false }) := by
        simp [applyEntryRec, hc]
      rw [hrec]
      simp only [hc, if_pos rfl]
      have hupd : (updateExisting e { p with hasImproved := false }).hasImproved
          = (e.status == .success && (ETime.fin e.time).lt p.time) :=
        updateExisting_flag e { p with hasImproved := false } rfl
      constructor
      · rintro ⟨q, hq, hflag⟩
        rcases List.mem_cons.mp hq with rfl | hq'
        · rw [← hupd]
          exact hflag
        · exact absurd hflag (by simp [mem_clear_flag _ q hq'])
      · intro hflag
        exact ⟨updateExisting e { p with hasImproved := false },
               List.mem_cons_self _ _, by rw [hupd]; exact hflag⟩

theorem other_flags_applyRec (e : Entry) (data : List Player) :
    ∀ p ∈ applyEntryRec e data, p.rollNo ≠ e.rollNo.render → p.hasImproved = false := by
  induction data with
  | nil =>
    intro p hp hne
    have hp' : p = freshPlayer e e.rollNo.render := by
      simpa [applyEntryRec] using hp
    subst hp'
    exact absurd (freshPlayer_rollNo e _) hne
  | cons q qs ih =>
    intro p hp hne
    cases hc : (q.rollNo == e.rollNo.render)
    · have hrec : applyEntryRec e (q :: qs)
          = { q with hasImproved := false } :: applyEntryRec e qs := by
        simp [applyEntryRec, hc]
      rw [hrec] at hp
      rcases List.mem_cons.mp hp with rfl | hp'
      · rfl
      · exact ih p hp' hne
    · have hrec : applyEntryRec e (q :: qs)
          = updateExisting e { q with hasImproved := false }
              :: qs.map (fun r => { r with hasImproved := false }) := by
        simp [applyEntryRec, hc]
      rw [hrec] at hp
      rcases List.mem_cons.mp hp with rfl | hp'
      · have : q.rollNo = e.rollNo.render := by
          exact beq_iff_eq.mp hc  -- wait hc is on the Bool cased value
        exact absurd (by rw [updateExisting_rollNo]; exact this) hne
      · exact mem_clear_flag _ p hp'

/-- C2: after any single apply, at most one record in the written set
carries the improvement flag; some record carries it exactly when the
outcome is a SUCCESS that beats the matched record's loaded best time
(or there is no record for that player yet, a first success); and every
record other than the applied outcome's own is written with the flag
false. -/
theorem improved_flag_unique (data : List Player) (e : Entry) :
    countImproved (applyEntry data e) ≤ 1 ∧
    ((∃ p ∈ applyEntry data e, p.hasImproved = true) ↔ improvesNow data e = true) ∧
    (∀ p ∈ applyEntry data e, p.rollNo ≠ e.rollNo.render → p.hasImproved = false) := by
  rw [applyEntry_eq_rec]
  exact ⟨countImproved_applyRec e data, exists_flag_applyRec e data,
         other_flags_applyRec e data⟩

/-- Witness for C2 at a concrete loaded set and outcome. -/
theorem improved_flag_unique_witness :
    countImproved (applyEntry demoData demoEntry) ≤ 1 :=
  (improved_flag_unique demoData demoEntry).1

/-! ### C1: the best time over a run history -/

theorem ETime.le_inf (a : ETime) : a.le .inf = true := by
  cases a <;> rfl

theorem ETime.min_comm (a b : ETime) : a.min b = b.min a := by
  cases a <;> cases b <;> simp [ETime.min, Nat.min_comm]

theorem ETime.min_assoc (a b c : ETime) : (a.min b).min c = a.min (b.min c) := by
  cases a <;> cases b <;> cases c <;> simp [ETime.min, Nat.min_assoc]

theorem ETime.le_min_mono (a x y : ETime) (h : x.le y = true) :
    (a.min x).le (a.min y) = true := by
  cases a <;> cases x <;> cases y <;> simp_all [ETime.min, ETime.le]

theorem mem_of_mem_take {α : Type} {a : α} :
    ∀ {n : Nat} {l : List α}, a ∈ l.take n → a ∈ l := by
  intro n l
  induction l generalizing n with
  | nil => simp
  | cons x xs ih =>
    cases n with
    | zero => simp [List.take]
    | succ n =>
      intro h
      rcases List.mem_cons.mp h with rfl | h'
      · exact List.mem_cons_self _ _
      · exact List.mem_cons_of_mem _ (ih h')

/-- Minimum over one more outcome can only shrink. -/
theorem minTimes_take_le (l : List Entry) :
    ∀ n : Nat, (minTimes (l.take (n + 1))).le (minTimes (l.take n)) = true := by
  induction l with
  | nil =>
    intro n
    simp [minTimes, ETime.le]
  | cons x xs ih =>
    intro n
    cases n with
    | zero => exact ETime.le_inf _
    | succ n =>
      show (ETime.min (.fin x.time) (minTimes (xs.take (n + 1)))).le
        (ETime.min (.fin x.time) (minTimes (xs.take n))) = true
      exact ETime.le_min_mono _ _ _ (ih n)

/-- The time the success branch of the handler records. -/
theorem updateExisting_time_success (e : Entry) (p : Player)
    (hst : e.status = .success) :
    (updateExisting e p).time
      = if (ETime.fin e.time).lt p.time then .fin e.time else p.time := by
  unfold updateExisting
  rw [hst]
  by_cases h : (ETime.fin e.time).lt p.time = true
  · simp [h]
  · simp [h]

/-- First success of a history: the store moves from empty to a single
record with the outcome's key and time. -/
theorem saveStep_first (f : StoreFile) (e : Entry)
    (hkey : e.rollNo.render ≠ "") (hst : e.status = .success)
    (hpos : 0 < e.time) (hread : readData f = []) :
    ∃ p, readData (saveStep f e) = [p] ∧ p.rollNo = e.rollNo.render
      ∧ p.time = .fin e.time := by
  rw [saveStep, hread, applyEntry_nil]
  refine ⟨_, readData_writeStore_single _ hkey, rfl, ?_⟩
  have h0 : e.time ≠ 0 := Nat.pos_iff_ne_zero.mp hpos
  show sanitizeTime (some (freshPlayer e e.rollNo.render).time) = .fin e.time
  simp [freshPlayer, hst, sanitizeTime, h0]

/-- Later success of a history: the single record keeps its key and its
time becomes the minimum of old best and new elapsed time. -/
theorem saveStep_next (f : StoreFile) (e : Entry) (p : Player) (m : Nat)
    (hread : readData f = [p]) (hkey : p.rollNo = e.rollNo.render)
    (hkne : p.rollNo ≠ "") (hst : e.status = .success) (hpos : 0 < e.time)
    (htime : p.time = .fin m) (hmpos : 0 < m) :
    ∃ p', readData (saveStep f e) = [p'] ∧ p'.rollNo = p.rollNo
      ∧ p'.time = ETime.min (.fin e.time) (.fin m) := by
  rw [saveStep, hread, applyEntry_single_match p e hkey]
  have hroll : (updateExisting e { p with hasImproved := false }).rollNo ≠ "" := by
    rw [updateExisting_rollNo]
    exact hkne
  refine ⟨_, readData_writeStore_single _ hroll, by rw [updateExisting_rollNo], ?_⟩
  show sanitizeTime (some (updateExisting e { p with hasImproved := false }).time)
      = ETime.min (.fin e.time) (.fin m)
  rw [updateExisting_time_success e _ hst]
  have hptime : ({ p with hasImproved := false } : Player).time = ETime.fin m := htime
  rw [hptime]
  rcases Nat.lt_or_ge e.time m with h | h
  · have h0 : e.time ≠ 0 := Nat.pos_iff_ne_zero.mp hpos
    simp [ETime.lt, h, sanitizeTime, ETime.min, Nat.min, h0]
    omega
  · have h0 : m ≠ 0 := Nat.pos_iff_ne_zero.mp hmpos
    simp [ETime.lt, Nat.not_lt.mpr h, sanitizeTime, ETime.min, Nat.min, h0]
    omega

/-- Folding an all-success history over a single-record store tracks the
running minimum. -/
theorem runFrom_single (es : List Entry) :
    ∀ (f : StoreFile) (key : String) (p : Player) (m : Nat),
    key ≠ "" →
    (∀ e ∈ es, e.status = .success ∧ e.rollNo.render = key ∧ 0 < e.time) →
    readData f = [p] → p.rollNo = key → p.time = .fin m → 0 < m →
    ∃ (p' : Player) (m' : Nat), readData (es.foldl saveStep f) = [p'] ∧
      p'.rollNo = key ∧ p'.time = .fin m' ∧ 0 < m' ∧
      ETime.fin m' = (ETime.fin m).min (minTimes es) := by
  induction es with
  | nil =>
    intro f key p m hkey hall hread hroll htime hm
    exact ⟨p, m, hread, hroll, htime, hm, rfl⟩
  | cons e es ih =>
    intro f key p m hkey hall hread hroll htime hm
    obtain ⟨hst, hkeq, hpos⟩ := hall e (List.mem_cons_self e es)
    obtain ⟨p1, hread1, hroll1, htime1⟩ :=
      saveStep_next f e p m hread (by rw [hroll, hkeq]) (by rw [hroll]; exact hkey)
        hst hpos htime hm
    have htime1' : p1.time = .fin (Nat.min e.time m) := htime1
    have hm1 : 0 < Nat.min e.time m := Nat.lt_min.mpr ⟨hpos, hm⟩
    obtain ⟨p', m', hr, hro, ht, hm', heq⟩ :=
      ih (saveStep f e) key p1 (Nat.min e.time m) hkey
        (fun e' he' => hall e' (List.mem_cons_of_mem _ he'))
        hread1 (by rw [hroll1, hroll]) htime1' hm1
    refine ⟨p', m', hr, hro, ht, hm', ?_⟩
    rw [heq]
    show (ETime.min (.fin e.time) (.fin m)).min (minTimes es)
        = (ETime.fin m).min (ETime.min (.fin e.time) (minTimes es))
    rw [ETime.min_comm (.fin e.time) (.fin m), ETime.min_assoc]

/-- Characterization: an all-success, all-positive history for one key
leaves the store's best time for that key at the minimum elapsed time
of the history. -/
theorem bestTime_run_char (es : List Entry) (key : String)
    (hne : es ≠ []) (hkey : key ≠ "")
    (hall : ∀ e ∈ es, e.status = .success ∧ e.rollNo.render = key ∧ 0 < e.time) :
    bestTimeOf (runSave es) key = some (minTimes es) := by
  cases es with
  | nil => exact absurd rfl hne
  | cons e es =>
    obtain ⟨hst, hkeq, hpos⟩ := hall e (List.mem_cons_self e es)
    obtain ⟨p1, hread1, hroll1, htime1⟩ :=
      saveStep_first (.table []) e (by rw [hkeq]; exact hkey) hst hpos rfl
    obtain ⟨p', m', hr, hro, ht, hm', heq⟩ :=
      runFrom_single es (saveStep (.table []) e) key p1 e.time hkey
        (fun e' he' => hall e' (List.mem_cons_of_mem _ he'))
        hread1 (by rw [hroll1, hkeq]) htime1 hpos
    have hrun : runSave (e :: es) = es.foldl saveStep (saveStep (.table []) e) := rfl
    rw [bestTimeOf, hrun, hr]
    have hbeq : (p'.rollNo == key) = true := by simp [hro]
    simp [List.find?, hbeq, ht, heq]
    rfl

/-- C1 counterexample: a successful run of 0 ms followed by a
successful run of 5 ms for the same player.  The first save stores a
best of 0, but `readData`'s falsy coercion reloads it as Infinity, so
the second save stores a best of 5: the persisted best rose from 0 to 5
and the final best is not the minimum elapsed time (0). -/
theorem best_time_zero_coercion_cex :
    minTimes [zeroRunA, zeroRunB] = .fin 0 ∧
    bestTimeOf (runSave [zeroRunA, zeroRunB]) "7" = some (.fin 5) ∧
    runSave [zeroRunA] = .table [rowOfPlayer
      { name := "AMY", rollNo := "7", time := .fin 0, successes := 1, defeats := 0,
        hasImproved := true }] ∧
    runSave [zeroRunA, zeroRunB] = .table [rowOfPlayer
      { name := "AMY", rollNo := "7", time := .fin 5, successes := 2, defeats := 0,
        hasImproved := true }] := by decide

/-- C1 as amended: for histories of SUCCESS outcomes of one player whose
elapsed times are all positive, the store's best time for that player
equals the minimum elapsed time applied so far, and along every step of
the history the best time never increases. -/
theorem best_time_is_min_of_positive (es : List Entry) (key : String)
    (hne : es ≠ []) (hkey : key ≠ "")
    (hall : ∀ e ∈ es, e.status = .success ∧ e.rollNo.render = key ∧ 0 < e.time) :
    bestTimeOf (runSave es) key = some (minTimes es) ∧
    ∀ n : Nat,
      ((bestTimeOfD (runSave (es.take (n + 1))) key).le
        (bestTimeOfD (runSave (es.take n)) key)) = true := by
  refine ⟨bestTime_run_char es key hne hkey hall, ?_⟩
  have hchar : ∀ k : Nat,
      bestTimeOfD (runSave (es.take (k + 1))) key = minTimes (es.take (k + 1)) := by
    intro k
    have hne' : es.take (k + 1) ≠ [] := by
      cases es with
      | nil => exact absurd rfl hne
      | cons e es' => simp
    have hall' : ∀ e ∈ es.take (k + 1),
        e.status = .success ∧ e.rollNo.render = key ∧ 0 < e.time :=
      fun e he => hall e (mem_of_mem_take he)
    rw [bestTimeOfD, bestTime_run_char _ key hne' hkey hall']
    rfl
  intro n
  cases n with
  | zero =>
    rw [show bestTimeOfD (runSave (es.take 0)) key = .inf from rfl]
    exact ETime.le_inf _
  | succ n =>
    rw [hchar (n + 1), hchar n]
    exact minTimes_take_le es (n + 1)

/-- Witness for the amended C1: two positive successes of player 7. -/
theorem best_time_is_min_of_positive_witness :
    bestTimeOf (runSave [posRunA, posRunB]) "7" = some (minTimes [posRunA, posRunB]) ∧
    ((bestTimeOfD (runSave ([posRunA, posRunB].take 1)) "7").le
      (bestTimeOfD (runSave ([posRunA, posRunB].take 0)) "7")) = true :=
  ⟨(best_time_is_min_of_positive [posRunA, posRunB] "7"
      (by decide) (by decide) (by decide)).1,
   (best_time_is_min_of_positive [posRunA, posRunB] "7"
      (by decide) (by decide) (by decide)).2 0⟩

/-- C4: the embedded run state machine starts in IDLE; `START` while
IDLE moves it to ACTIVE; a duplicate `START` while ACTIVE is a no-op
(state stays ACTIVE and nothing is printed); any line other than `START`
leaves the command-processing state unchanged; and while ACTIVE a fallen
sample sends the machine back to IDLE emitting exactly one `FINISH` line
on that edge, after which further low samples emit nothing. -/
theorem run_state_machine_transitions :
    initialGameIsActive = false ∧
    processCommand false "START" = (true, ["Game Started!"]) ∧
    processCommand true "START" = (true, []) ∧
    (∀ (a : Bool) (l : String), trimS l ≠ "START" → (processCommand a l).1 = a) ∧
    (∀ d : Int, 0 < d → d < FALL_THRESHOLD → loopStep true none d = (false, ["FINISH"])) ∧
    (∀ d : Int, loopStep false none d = (false, [])) := by
  refine ⟨rfl, by decide, by decide, ?_, ?_, ?_⟩
  · intro a l hl
    have hb : (trimS l == "START") = false := by
      simp [hl]
    cases a <;> simp [processCommand, hb]
  · intro d h0 h5
    simp [loopStep, fallCheck, if_pos (And.intro h0 h5)]
  · intro d
    simp [loopStep, fallCheck]

/-- Witness for C4 at a concrete unrecognized line and a concrete fallen
sample. -/
theorem run_state_machine_transitions_witness :
    (processCommand true "FOO").1 = true ∧ loopStep true none 3 = (false, ["FINISH"]) :=
  ⟨run_state_machine_transitions.2.2.2.1 true "FOO" (by decide),
   run_state_machine_transitions.2.2.2.2.1 3 (by decide) (by decide)⟩

/-- C5 counterexample: a sampled distance of 0 (the value `getDistance`
returns when `pulseIn` times out) is below `FALL_THRESHOLD`, yet while
ACTIVE it does not end the run and emits no `FINISH`: the code requires
`distance > 0 && distance < FALL_THRESHOLD`, so not every sample below
the threshold triggers. -/
theorem fall_zero_sample_cex :
    (0 : Int) < FALL_THRESHOLD ∧ loopStep true none 0 = (true, []) := by decide

/-- C5 as amended: while ACTIVE, a single sampled distance d with
0 < d < FALL_THRESHOLD ends the run and emits `FINISH` — no debouncing
or hysteresis, one sample suffices. -/
theorem fall_single_sample_triggers (d : Int) (h0 : 0 < d) (h5 : d < FALL_THRESHOLD) :
    loopStep true none d = (false, ["FINISH"]) := by
  simp [loopStep, fallCheck, if_pos (And.intro h0 h5)]

/-- Witness for the amended C5 at distance 3. -/
theorem fall_single_sample_triggers_witness :
    loopStep true none 3 = (false, ["FINISH"]) :=
  fall_single_sample_triggers 3 (by decide) (by decide)

/-- C6: the code contradicts the claim — `handleStartTrial` has no guard
on an already-timed run.  From a state in which a run is being timed
(interval id 0 live) a second call with valid inputs sends a second
`START`, overwrites the recorded start instant with the new `now`, and
creates a second periodic interval while the first one is still live
(its id is overwritten without `clearInterval`). -/
theorem second_begin_not_rejected :
    rStateRunning.timerInterval = some 0 ∧
    (handleStartTrial rStateRunning "bo" "8" 250).sentCommands = ["START", "START"] ∧
    (handleStartTrial rStateRunning "bo" "8" 250).startTime = 250 ∧
    (handleStartTrial rStateRunning "bo" "8" 250).liveIntervals = [0, 1] ∧
    (handleStartTrial rStateRunning "bo" "8" 250).timerInterval = some 1 := by decide

/-- C7 counterexample: with the port already open at COM3, connecting to
COM3 again is not a no-op — the code closes the open port and opens a
new one at the same path, emitting a close and an open event. -/
theorem connect_same_endpoint_cex :
    connectToPort (some "COM3") "COM3" ≠ (some "COM3", []) ∧
    connectToPort (some "COM3") "COM3"
      = (some "COM3", [.closedPort "COM3", .openedPort "COM3"]) := by decide

/-- C7 as amended: connecting always closes any previously open endpoint
first (even when the target is the endpoint already open — a reconnect,
not a no-op) and ends connected to the target; closing when already
closed is a no-op, and close is idempotent. -/
theorem connect_close_then_open :
    (∀ (cur : Option String) (path : String), (connectToPort cur path).1 = some path) ∧
    (∀ (old path : String),
      (connectToPort (some old) path).2 = [.closedPort old, .openedPort path]) ∧
    (∀ (path : String), (connectToPort none path).2 = [.openedPort path]) ∧
    closeIfOpen none = (none, []) ∧
    (∀ cur : Option String, closeIfOpen (closeIfOpen cur).1 = (none, [])) := by
  refine ⟨?_, ?_, ?_, rfl, ?_⟩
  · intro cur path
    cases cur <;> rfl
  · intro old path
    rfl
  · intro path
    rfl
  · intro cur
    cases cur <;> rfl

/-- C3: the spec requires `apply` calls to be serialized, but the
`excel:save-data` handler contains no mutual exclusion: the schedule in
which both calls load before the first persists respects each call's
own load-before-persist program order, violates the claimed
serialization, and silently loses player 1's update — while the
serialized schedule of the same two calls keeps both records. -/
theorem lost_update_interleaving :
    programOrderOk lostSched = true ∧
    serializedOk lostSched = false ∧
    (readData (runSched raceE1 raceE2 lostSched).store).map Player.rollNo = ["2"] ∧
    (readData (runSched raceE1 raceE2 serialSched).store).map Player.rollNo
      = ["1", "2"] := by decide

end Maze
